import Mathlib

/-!
Verification development for the MiniPython interpreter core
(lexer `src/lexer.cpp` / `src/lexer.h`, object model `src/runtime.cpp` /
`src/runtime.h`, AST evaluator `src/statement.cpp` / `src/statement.h`).

The C++ code is shallowly embedded:
* runtime values (`ObjectHolder` contents) become the inductive `runtime.Value`;
  an empty `ObjectHolder` (the `None` value) is `Value.none`;
* `Closure` (`std::unordered_map<std::string, ObjectHolder>`) becomes an
  association list with `lookupC` / `emplaceC` / `insertOrAssignC` mirroring
  `count`/`at`, `emplace` and `operator[]=`;
* class descriptors live in an immutable table `List ClassD`; a parent pointer
  is the index of an earlier table entry (C++ parent pointers always reference
  a previously constructed class, hence the `p < i` guard in lookup);
* mutable `ClassInstance` objects live in a heap `List Inst`; a
  `runtime::ObjectHolder` sharing an instance is `Value.inst addr`;
* statement evaluation (`Statement::Execute`) is a fuel-indexed function
  returning `Except Err`; the thrown `ReturnException` is the `RRes.ret`
  outcome, C++ `std::runtime_error` is `Except.error`;
* the lexer's `std::istream` is modelled by `Istream` (remaining characters
  plus the fail state); `get` past the end sets the fail flag, exactly as
  `istream::get` sets `failbit`, and `putback` on a failed stream is a no-op.
-/

namespace runtime

/-- Runtime values: the possible contents of a `runtime::ObjectHolder`.
`none` is the empty holder, `num`/`str`/`bool` are the `ValueObject`
specialisations `Number`/`String`/`Bool`, `cls c` holds the `Class` descriptor
with index `c` in the class table, and `inst a` shares the `ClassInstance`
stored at heap address `a`. -/
inductive Value where
  | none
  | num (n : Int)
  | str (s : String)
  | bool (b : Bool)
  | cls (c : Nat)
  | inst (a : Nat)
deriving DecidableEq

/-- `runtime::IsTrue` (runtime.cpp lines 64-78): an empty holder is false;
a `String`/`Number`/`Bool` object is compared against `""`/`0`/`false`;
every other object (in particular `Class` and `ClassInstance`) falls through
to the final `return false`. -/
def IsTrue : Value → Bool
  | .none => false
  | .str s => s ≠ ""
  | .num n => n ≠ 0
  | .bool b => b ≠ false
  | .cls _ => false
  | .inst _ => false

/-- Symbol table (`runtime::Closure`), an association list keyed by name. -/
abbrev Closure := List (String × Value)

/-- `unordered_map::count`/`at` read access: the first binding of a key. -/
def lookupC : Closure → String → Option Value
  | [], _ => Option.none
  | (k, v) :: rest, key => if k = key then some v else lookupC rest key

/-- `unordered_map::emplace`: inserts only when the key is not yet bound. -/
def emplaceC (c : Closure) (k : String) (v : Value) : Closure :=
  if (lookupC c k).isSome then c else c ++ [(k, v)]

/-- `unordered_map::operator[] = v`: insert-or-assign. -/
def insertOrAssignC : Closure → String → Value → Closure
  | [], key, v => [(key, v)]
  | (k, w) :: rest, key, v =>
    if k = key then (k, v) :: rest else (k, w) :: insertOrAssignC rest key v

end runtime

/-- C1 counterexample: the claim asserts `is_true` is true on every `Class`
value and every `Instance` value, but `runtime::IsTrue` falls through to
`return false` for both (and the unit test `TestIsTrue` asserts exactly
that), so a `Class` value and an `Instance` value are both false. -/
theorem isTrue_class_instance_false :
    runtime.IsTrue (runtime.Value.cls 0) = false ∧
    runtime.IsTrue (runtime.Value.inst 0) = false := by
  constructor <;> rfl

/-- C1 (amended): `is_true(v)` is false exactly when `v` is `None` (or an
absent binding), `Number(0)`, `Bool(false)`, the empty `String`, or any
`Class` or `Instance` value; it is true exactly for non-zero numbers,
non-empty strings and `Bool(true)`. -/
theorem isTrue_false_characterization (v : runtime.Value) :
    runtime.IsTrue v = false ↔
      (v = runtime.Value.none ∨ v = runtime.Value.num 0 ∨
       v = runtime.Value.bool false ∨ v = runtime.Value.str "" ∨
       (∃ c, v = runtime.Value.cls c) ∨ (∃ a, v = runtime.Value.inst a)) := by
  cases v <;> simp [runtime.IsTrue]

namespace parse

/-- Tokens (`parse::Token`, lexer.h). `indentCounter`/`dedentCounter`/
`savedent` are the internal pseudo-tokens `IndentCounter`/`DedentCounter`/
`Savedent` produced by `CreateIndent`; `SplitIntoTokens` expands them into
runs of `indent`/`dedent` or drops them. -/
inductive Tok where
  | number (n : Nat)
  | id (s : String)
  | char (c : Char)
  | str (s : String)
  | classT
  | returnT
  | ifT
  | elseT
  | defT
  | newline
  | printT
  | indent
  | indentCounter (n : Nat)
  | dedent
  | dedentCounter (n : Nat)
  | savedent
  | andT
  | orT
  | notT
  | eqT
  | notEqT
  | lessOrEqT
  | greaterOrEqT
  | noneT
  | trueT
  | falseT
  | eofT
deriving DecidableEq

/-- A `std::istream`: the characters not yet consumed plus the fail state.
`get` past the end returns EOF and sets the fail bit; a failed stream makes
`while (input)` false and turns `putback` into a no-op. -/
structure Istream where
  chars : List Char
  failed : Bool
deriving DecidableEq

/-- Lexer state (`LexerTokenCreator` fields `is_new_line_`,
`indent_counter_`; `is_end_of_file_` is never read). -/
structure LexState where
  is_new_line : Bool
  indent_counter : Nat
deriving DecidableEq

/-- Lexing failure: a thrown `LexerError`, or fuel exhaustion of the model
(the C++ loops forever on inputs where the model runs out of fuel, e.g. an
unrecognised byte; such inputs are accepted by neither). -/
inductive LexErr where
  | fuel
  | err (msg : String)
deriving DecidableEq

/-- `detail_lexer::GetChar`: extract one character; at end of input it
returns EOF (modelled as `Option.none`) and sets the fail bit. -/
def getChar (s : Istream) : Istream × Option Char :=
  if s.failed then (s, Option.none)
  else
    match s.chars with
    | [] => (⟨[], true⟩, Option.none)
    | c :: rest => (⟨rest, false⟩, some c)

/-- `istream::putback`: a no-op on a failed stream. -/
def putback (c : Char) (s : Istream) : Istream :=
  if s.failed then s else ⟨c :: s.chars, false⟩

/-- The byte `char(EOF)` that the C++ code stores when it pushes the result
of a failed `get` into a string (0xFF on the usual 8-bit `char`). -/
def eofByte : Char := Char.ofNat 255

/-- Single quote and double quote (written via code points to keep the
source free of quote-character literals). -/
def quoteS : Char := Char.ofNat 39

/-- Double quote character. -/
def quoteD : Char := Char.ofNat 34

/-- `detail_lexer::IsQuote`. -/
def isQuote (c : Char) : Bool := c == quoteS || c == quoteD

/-- `detail_lexer::IsAlpha`: `std::isalpha(c) || c == '_'`. -/
def isAlphaC (c : Char) : Bool := c.isAlpha || c == '_'

/-- `lexer_consts::SPECIAL_SIGNS` membership. -/
def isSpecialSign (c : Char) : Bool :=
  [':', '(', ')', ',', '.', '+', '-', '*', '/', '!', '>', '<', '='].contains c

/-- Loop predicate of `ReadSpaces`: `IsSpace` applied to the result of
`GetChar` (EOF is not a space). -/
def isSpaceO : Option Char → Bool
  | some c => c == ' '
  | _ => false

/-- Loop predicate of `SkipTillTheEndOfLine`: `IsNotEndOfLine` (note: EOF
compares unequal to a newline, so the predicate holds on EOF). -/
def notEolO : Option Char → Bool
  | some c => c != '\n'
  | _ => true

/-- Loop predicate of `CreateNumber`: `IsDigit` (false on EOF). -/
def digitO : Option Char → Bool
  | some c => c.isDigit
  | _ => false

/-- Loop predicate of `CreateSpecialWordOrId` (false on EOF). -/
def alnumO : Option Char → Bool
  | some c => isAlphaC c || c.isDigit
  | _ => false

/-- The loop body of `ReadWordIf` on the character list of a healthy stream:
read while `cmp` holds; on a failing `get` the C++ loop sees `c = EOF`; if
`cmp` accepts EOF the byte is pushed and the `while (input)` test exits the
loop, otherwise the loop breaks (the guarded `putback` is skipped). A break
on a real character puts it back. -/
def readWordGo (cmp : Option Char → Bool) : List Char → Istream × List Char
  | [] =>
    if cmp Option.none then (⟨[], true⟩, [eofByte]) else (⟨[], true⟩, [])
  | c :: rest =>
    if cmp (some c) then
      let p := readWordGo cmp rest
      (p.1, c :: p.2)
    else (⟨c :: rest, false⟩, [])

/-- `detail_lexer::ReadWordIf`: a failed stream exits the loop at once. -/
def readWordIf (cmp : Option Char → Bool) (s : Istream) : Istream × List Char :=
  if s.failed then (s, []) else readWordGo cmp s.chars

/-- `detail_lexer::SkipWordIf`: same loop as `ReadWordIf` without
accumulating the word. -/
def skipWordIf (cmp : Option Char → Bool) (s : Istream) : Istream :=
  (readWordIf cmp s).1

/-- `detail_lexer::ReadSpaces`. -/
def readSpaces (s : Istream) : Istream × List Char := readWordIf isSpaceO s

/-- `detail_lexer::SkipSpaces`. -/
def skipSpaces (s : Istream) : Istream := skipWordIf isSpaceO s

/-- `detail_lexer::SkipTillTheEndOfLine`. -/
def skipTillEol (s : Istream) : Istream := skipWordIf notEolO s

/-- `detail_lexer::IsNextEndOfLine`: true on a failed stream; otherwise
`peek` (which does not set the fail bit) is compared with a newline, and
`peek` at end of input yields EOF, which is not a newline. -/
def isNextEol (s : Istream) : Bool :=
  if s.failed then true
  else
    match s.chars with
    | c :: _ => c == '\n'
    | [] => false

/-- Digit run to numeric value (`std::stoi` on a string of digits; the
claims never depend on the numeric value, overflow is ignored). -/
def toNum (digits : List Char) : Nat :=
  digits.foldl (fun acc c => acc * 10 + (c.toNat - 48)) 0

/-- `LexerTokenCreator::CreateIndent`: `delta` is the signed difference of
leading-space counts; odd `delta` throws, `delta = 0` yields `Savedent`,
positive yields `IndentCounter(delta / 2)`, negative `DedentCounter`. -/
def createIndent (localCnt : Nat) (st : LexState) : Except LexErr (Tok × LexState) :=
  let delta : Int := (localCnt : Int) - (st.indent_counter : Int)
  let st' : LexState := ⟨st.is_new_line, localCnt⟩
  if delta % 2 ≠ 0 then .error (.err "Unknown indent")
  else if delta = 0 then .ok (.savedent, st')
  else if 2 ≤ delta then .ok (.indentCounter (delta.toNat / 2), st')
  else .ok (.dedentCounter ((-delta).toNat / 2), st')

/-- `LexerTokenCreator::CreateString`: consume the opening quote, read until
the matching quote, consume the closing quote (a no-op when the stream
failed at an unterminated string). -/
def createString (s : Istream) : Tok × Istream :=
  let p := getChar s
  let q : Char := p.2.getD eofByte
  let r := readWordIf (fun oc => oc != some q) p.1
  let p₂ := getChar r.1
  (.str (String.mk r.2), p₂.1)

/-- `LexerTokenCreator::CreateNumber`. -/
def createNumber (s : Istream) : Tok × Istream :=
  let r := readWordIf digitO s
  (.number (toNum r.2), r.1)

/-- `lexer_consts::OPERATION_SIGNS` keyed by the first character (all four
entries are a sign followed by `=`). -/
def opSign (c : Char) : Option Tok :=
  if c = '=' then some .eqT
  else if c = '!' then some .notEqT
  else if c = '<' then some .lessOrEqT
  else if c = '>' then some .greaterOrEqT
  else Option.none

/-- `LexerTokenCreator::CreateSpecialSignOrChar`: read the sign; if the
stream is healthy read one more character; a following `=` forming one of
`==`, `!=`, `<=`, `>=` yields the operator token, otherwise the second
character is put back and a `Char` token is produced. -/
def createSpecialSignOrChar (s : Istream) : Tok × Istream :=
  let p := getChar s
  let c : Char := p.2.getD eofByte
  if p.1.failed then (.char c, p.1)
  else
    let p₂ := getChar p.1
    match p₂.2 with
    | some nc =>
      if nc = '=' then
        match opSign c with
        | some t => (t, p₂.1)
        | Option.none => (.char c, putback nc p₂.1)
      else (.char c, putback nc p₂.1)
    | Option.none => (.char c, p₂.1)

/-- `lexer_consts::SPECIAL_WORDS` lookup falling back to an `Id` token. -/
def specialWord (w : String) : Tok :=
  if w = "class" then .classT
  else if w = "return" then .returnT
  else if w = "if" then .ifT
  else if w = "else" then .elseT
  else if w = "def" then .defT
  else if w = "print" then .printT
  else if w = "and" then .andT
  else if w = "or" then .orT
  else if w = "not" then .notT
  else if w = "None" then .noneT
  else if w = "True" then .trueT
  else if w = "False" then .falseT
  else .id w

/-- `LexerTokenCreator::CreateSpecialWordOrId`. -/
def createSpecialWordOrId (s : Istream) : Tok × Istream :=
  let r := readWordIf alnumO s
  (specialWord (String.mk r.2), r.1)

/-- `LexerTokenCreator::NextToken` with `SkipEmptyLinesAndCreateIndent`,
`CreateNewLine` and `CreateEof` inlined. The fuel only rules out the
non-terminating C++ behaviour on unrecognised bytes (`CreateSpecialWordOrId`
returns an empty `Id` without consuming input there). `IsEof` leaves a
healthy stream untouched (get + putback) and reports end of input after a
failed read, in which case `CreateEof`'s extra `get` keeps the stream
failed. -/
def nextToken : Nat → LexState → Istream → Except LexErr (Tok × LexState × Istream)
  | 0, _, _ => .error .fuel
  | _ + 1, st, ⟨cs, true⟩ => .ok (.eofT, st, ⟨cs, true⟩)
  | _ + 1, st, ⟨[], false⟩ => .ok (.eofT, st, ⟨[], true⟩)
  | fuel + 1, st, ⟨c :: cs, false⟩ =>
    if st.is_new_line then
      let st₁ : LexState := ⟨false, st.indent_counter⟩
      let r := readSpaces ⟨c :: cs, false⟩
      if isNextEol r.1 then
        nextToken fuel ⟨true, st₁.indent_counter⟩ (getChar r.1).1
      else
        match createIndent r.2.length st₁ with
        | .error e => .error e
        | .ok (t, st₂) => .ok (t, st₂, r.1)
    else if c == ' ' then nextToken fuel st (skipSpaces ⟨c :: cs, false⟩)
    else if c == '#' then nextToken fuel st (skipTillEol ⟨c :: cs, false⟩)
    else if isQuote c then
      let p := createString ⟨c :: cs, false⟩
      .ok (p.1, st, p.2)
    else if isSpecialSign c then
      let p := createSpecialSignOrChar ⟨c :: cs, false⟩
      .ok (p.1, st, p.2)
    else if c.isDigit then
      let p := createNumber ⟨c :: cs, false⟩
      .ok (p.1, st, p.2)
    else if c == '\n' then .ok (.newline, ⟨true, st.indent_counter⟩, ⟨cs, false⟩)
    else
      let p := createSpecialWordOrId ⟨c :: cs, false⟩
      .ok (p.1, st, p.2)

/-- `IndentCounter` payload (`token.Is<IndentCounter>()` / `.As<...>`). -/
def indentCount : Tok → Option Nat
  | .indentCounter n => some n
  | _ => Option.none

/-- `DedentCounter` payload. -/
def dedentCount : Tok → Option Nat
  | .dedentCounter n => some n
  | _ => Option.none

/-- The `while (input)` loop of `detail_lexer::SplitIntoTokens`:
`Savedent` is dropped, a leading `Newline` is suppressed, counter tokens
expand to runs of `Indent`/`Dedent`, and on `Eof` one `Dedent` per open
2-space level (`indent_counter / INDENT_STEP`) is emitted before `Eof`
itself is pushed. -/
def splitLoop : Nat → LexState → Istream → List Tok → Except LexErr (List Tok)
  | 0, _, _, _ => .error .fuel
  | fuel + 1, st, s, tokens =>
    if s.failed then .ok tokens
    else
      match nextToken fuel st s with
      | .error e => .error e
      | .ok (tok, st', s') =>
        if tok = .savedent then splitLoop fuel st' s' tokens
        else if tokens.isEmpty ∧ tok = .newline then splitLoop fuel st' s' tokens
        else if (indentCount tok).isSome then
          splitLoop fuel st' s' (tokens ++ List.replicate ((indentCount tok).getD 0) .indent)
        else if (dedentCount tok).isSome then
          splitLoop fuel st' s' (tokens ++ List.replicate ((dedentCount tok).getD 0) .dedent)
        else
          let tokens₁ := if tok = .eofT ∧ 0 < st'.indent_counter
            then tokens ++ List.replicate (st'.indent_counter / 2) Tok.dedent
            else tokens
          splitLoop fuel st' s' (tokens₁ ++ [tok])

/-- Fuel sufficient for `SplitIntoTokens` on terminating inputs: the loop
performs at most a bounded number of steps per input character. -/
def lexFuel (input : List Char) : Nat := 4 * input.length + 16

/-- `detail_lexer::SplitIntoTokens`: run the loop from a fresh
`LexerTokenCreator` and an empty token list, then apply the two tail fixups
(synthetic trailing `Newline`, guaranteed trailing `Eof`). -/
def splitIntoTokens (input : List Char) : Except LexErr (List Tok) :=
  match splitLoop (lexFuel input) ⟨true, 0⟩ ⟨input, false⟩ [] with
  | .error e => .error e
  | .ok tokens =>
    let t₁ := if tokens ≠ [] ∧ tokens.getLast? ≠ some Tok.eofT ∧ tokens.getLast? ≠ some Tok.newline
      then tokens ++ [Tok.newline] else tokens
    let t₂ := if t₁ = [] ∨ t₁.getLast? ≠ some Tok.eofT then t₁ ++ [Tok.eofT] else t₁
    .ok t₂

end parse

namespace parse

theorem readWordGo_spaces (k : Nat) (c : Char) (cs : List Char)
    (h : (c == ' ') = false) :
    readWordGo isSpaceO (List.replicate k ' ' ++ c :: cs) =
      (⟨c :: cs, false⟩, List.replicate k ' ') := by
  induction k with
  | zero => simp [readWordGo, isSpaceO, h]
  | succ n ih => simp [List.replicate_succ, readWordGo, isSpaceO, ih]

theorem readSpaces_spaces (k : Nat) (c : Char) (cs : List Char)
    (h : (c == ' ') = false) :
    readSpaces ⟨List.replicate k ' ' ++ c :: cs, false⟩ =
      (⟨c :: cs, false⟩, List.replicate k ' ') := by
  simp [readSpaces, readWordIf, readWordGo_spaces k c cs h]

theorem nextToken_new_line_skip (fuel : Nat) (st : LexState) (k : Nat)
    (rest : List Char) (h : st.is_new_line = true) :
    nextToken (fuel + 1) st ⟨List.replicate k ' ' ++ '\n' :: rest, false⟩ =
      nextToken fuel st ⟨rest, false⟩ := by
  obtain ⟨inl, ic⟩ := st
  simp only [LexState.is_new_line] at h
  subst h
  have hr := readSpaces_spaces k '\n' rest (by decide)
  cases k with
  | zero =>
    simp only [List.replicate, List.nil_append] at hr ⊢
    simp only [nextToken, hr]
    simp [isNextEol, getChar]
  | succ n =>
    rw [List.replicate_succ, List.cons_append]
    simp only [nextToken, ← List.cons_append, ← List.replicate_succ, hr]
    simp [isNextEol, getChar]

theorem nextToken_new_line_comment (fuel : Nat) (st : LexState) (k : Nat)
    (rest : List Char) (h : st.is_new_line = true) :
    nextToken (fuel + 1) st ⟨List.replicate k ' ' ++ '#' :: rest, false⟩ =
      (match createIndent k ⟨false, st.indent_counter⟩ with
       | .error e => .error e
       | .ok (t, st₂) => .ok (t, st₂, (⟨'#' :: rest, false⟩ : Istream))) := by
  obtain ⟨inl, ic⟩ := st
  simp only [LexState.is_new_line] at h
  subst h
  have hr := readSpaces_spaces k '#' rest (by decide)
  cases k with
  | zero =>
    simp only [List.replicate, List.nil_append] at hr ⊢
    simp only [nextToken, hr]
    simp [isNextEol]
  | succ n =>
    rw [List.replicate_succ, List.cons_append]
    simp only [nextToken, ← List.cons_append, ← List.replicate_succ, hr]
    simp [isNextEol]

end parse

namespace parse

set_option maxHeartbeats 1000000 in
theorem specialWord_ne_eof (w : String) : specialWord w ≠ Tok.eofT := by
  intro h
  unfold specialWord at h
  split_ifs at h

theorem opSign_ne_eof (c : Char) (t : Tok) (h : opSign c = some t) : t ≠ Tok.eofT := by
  unfold opSign at h
  split_ifs at h
  all_goals first
    | exact Option.noConfusion h
    | (injection h with h1; rw [← h1]; exact fun hc => Tok.noConfusion hc)

theorem createSpecialSignOrChar_ne_eof (s : Istream) :
    (createSpecialSignOrChar s).1 ≠ Tok.eofT := by
  unfold createSpecialSignOrChar
  dsimp only
  split
  · exact fun hc => Tok.noConfusion hc
  · split
    · split
      · split
        · rename_i hop
          exact opSign_ne_eof _ _ hop
        · exact fun hc => Tok.noConfusion hc
      · exact fun hc => Tok.noConfusion hc
    · exact fun hc => Tok.noConfusion hc

theorem createString_ne_eof (s : Istream) : (createString s).1 ≠ Tok.eofT := by
  intro h
  exact Tok.noConfusion h

theorem createNumber_ne_eof (s : Istream) : (createNumber s).1 ≠ Tok.eofT := by
  intro h
  exact Tok.noConfusion h

theorem createSpecialWordOrId_ne_eof (s : Istream) :
    (createSpecialWordOrId s).1 ≠ Tok.eofT :=
  specialWord_ne_eof _

theorem createIndent_ok_ne_eof (k : Nat) (st : LexState) (t : Tok) (st' : LexState)
    (h : createIndent k st = .ok (t, st')) : t ≠ Tok.eofT := by
  unfold createIndent at h
  dsimp only at h
  split_ifs at h
  all_goals
    (injection h with h1; injection h1 with ht hst; rw [← ht];
     exact fun hc => Tok.noConfusion hc)

end parse

namespace parse

theorem nextToken_eof_failed : ∀ (fuel : Nat) (st : LexState) (s : Istream)
    (st' : LexState) (s' : Istream),
    nextToken fuel st s = .ok (Tok.eofT, st', s') → s'.failed = true := by
  intro fuel
  induction fuel with
  | zero => intro st s st' s' h; simp [nextToken] at h
  | succ n ih =>
    intro st s st' s' h
    obtain ⟨cs, fl⟩ := s
    cases fl with
    | true =>
      simp only [nextToken, Except.ok.injEq, Prod.mk.injEq] at h
      rw [← h.2.2]
    | false =>
      cases cs with
      | nil =>
        simp only [nextToken, Except.ok.injEq, Prod.mk.injEq] at h
        rw [← h.2.2]
      | cons c rest =>
        simp only [nextToken] at h
        split at h
        · split at h
          · exact ih _ _ _ _ h
          · split at h
            · exact absurd h (by simp)
            · rename_i heq
              simp only [Except.ok.injEq, Prod.mk.injEq] at h
              exact absurd h.1 (createIndent_ok_ne_eof _ _ _ _ heq)
        · split at h
          · exact ih _ _ _ _ h
          · split at h
            · exact ih _ _ _ _ h
            · split at h
              · simp only [Except.ok.injEq, Prod.mk.injEq] at h
                exact absurd h.1 (createString_ne_eof _)
              · split at h
                · simp only [Except.ok.injEq, Prod.mk.injEq] at h
                  exact absurd h.1 (createSpecialSignOrChar_ne_eof _)
                · split at h
                  · simp only [Except.ok.injEq, Prod.mk.injEq] at h
                    exact absurd h.1 (createNumber_ne_eof _)
                  · split at h
                    · simp only [Except.ok.injEq, Prod.mk.injEq] at h
                      exact absurd h.1 (by simp)
                    · simp only [Except.ok.injEq, Prod.mk.injEq] at h
                      exact absurd h.1 (createSpecialWordOrId_ne_eof _)

end parse

namespace parse

theorem getLast?_snocA {α : Type} (l : List α) (a : α) :
    (l ++ [a]).getLast? = some a := by
  rw [List.getLast?_append_cons]
  rfl

theorem mem_of_getLast?A {α : Type} : ∀ (l : List α) (a : α),
    l.getLast? = some a → a ∈ l := by
  intro l
  induction l with
  | nil => intro a h; simp at h
  | cons x xs ih =>
    intro a h
    cases xs with
    | nil =>
      simp [List.getLast?] at h
      simp [h]
    | cons y ys =>
      rw [List.getLast?_cons_cons] at h
      exact List.mem_cons_of_mem _ (ih _ h)

theorem splitLoop_failed (fuel : Nat) (st : LexState) (s : Istream)
    (tokens ts : List Tok) (hf : s.failed = true)
    (h : splitLoop fuel st s tokens = .ok ts) : ts = tokens := by
  cases fuel with
  | zero => simp [splitLoop] at h
  | succ n =>
    simp only [splitLoop, hf, if_true] at h
    injection h with h1
    exact h1.symm

theorem splitLoop_eof_end : ∀ (fuel : Nat) (st : LexState) (s : Istream)
    (tokens ts : List Tok),
    splitLoop fuel st s tokens = .ok ts → Tok.eofT ∉ tokens →
    (Tok.eofT ∉ ts ∨ ∃ pre, ts = pre ++ [Tok.eofT] ∧ Tok.eofT ∉ pre) := by
  intro fuel
  induction fuel with
  | zero => intro st s tokens ts h hn; simp [splitLoop] at h
  | succ n ih =>
    intro st s tokens ts h hn
    by_cases hf : s.failed = true
    · rw [splitLoop_failed _ _ _ _ _ hf h]
      exact Or.inl hn
    · simp only [splitLoop, hf, if_false, Bool.false_eq_true] at h
      cases hnt : nextToken n st s with
      | error e => rw [hnt] at h; simp at h
      | ok r =>
        obtain ⟨tok, st', s'⟩ := r
        rw [hnt] at h
        dsimp only at h
        by_cases h1 : tok = Tok.savedent
        · rw [if_pos h1] at h
          exact ih _ _ _ _ h hn
        · rw [if_neg h1] at h
          by_cases h2 : tokens.isEmpty ∧ tok = Tok.newline
          · rw [if_pos h2] at h
            exact ih _ _ _ _ h hn
          · rw [if_neg h2] at h
            by_cases h3 : (indentCount tok).isSome = true
            · rw [if_pos h3] at h
              refine ih _ _ _ _ h ?_
              intro hmem
              rcases List.mem_append.1 hmem with hm | hm
              · exact hn hm
              · exact absurd (List.eq_of_mem_replicate hm) (by simp)
            · rw [if_neg h3] at h
              by_cases h4 : (dedentCount tok).isSome = true
              · rw [if_pos h4] at h
                refine ih _ _ _ _ h ?_
                intro hmem
                rcases List.mem_append.1 hmem with hm | hm
                · exact hn hm
                · exact absurd (List.eq_of_mem_replicate hm) (by simp)
              · rw [if_neg h4] at h
                by_cases h5 : tok = Tok.eofT
                · subst h5
                  have hsf : s'.failed = true := nextToken_eof_failed _ _ _ _ _ hnt
                  have hts := splitLoop_failed _ _ _ _ _ hsf h
                  by_cases h6 : 0 < st'.indent_counter
                  · rw [if_pos ⟨rfl, h6⟩] at hts
                    refine Or.inr ⟨_, hts, ?_⟩
                    intro hmem
                    rcases List.mem_append.1 hmem with hm | hm
                    · exact hn hm
                    · exact absurd (List.eq_of_mem_replicate hm) (by simp)
                  · rw [if_neg (fun hc => h6 hc.2)] at hts
                    exact Or.inr ⟨_, hts, hn⟩
                · have htk : (if tok = Tok.eofT ∧ 0 < st'.indent_counter
                      then tokens ++ List.replicate (st'.indent_counter / 2) Tok.dedent
                      else tokens) = tokens := by
                    rw [if_neg]
                    intro hc
                    exact h5 hc.1
                  rw [htk] at h
                  refine ih _ _ _ _ h ?_
                  intro hmem
                  rcases List.mem_append.1 hmem with hm | hm
                  · exact hn hm
                  · rw [List.mem_singleton] at hm
                    exact h5 hm.symm

end parse

namespace parse

/-- C2 counterexample: for the non-empty input `"x\n  y\n"` (a line followed
by a more-indented line, ending in a newline) the lexer closes the open
indentation at end of input, so the token immediately preceding the final
`Eof` is a `Dedent`, not a `Newline`, refuting the claim as stated. -/
theorem tokenStream_dedent_before_eof :
    splitIntoTokens ("x\n  y\n".data) =
      .ok [Tok.id "x", Tok.newline, Tok.indent, Tok.id "y", Tok.newline,
           Tok.dedent, Tok.eofT] ∧
    [Tok.id "x", Tok.newline, Tok.indent, Tok.id "y", Tok.newline,
     Tok.dedent, Tok.eofT].dropLast.getLast? = some Tok.dedent := by
  constructor <;> rfl

/-- C2 (amended): for every input accepted by the lexer the emitted token
stream ends with exactly one `Eof` and contains no other `Eof`; the token
immediately preceding `Eof` need not be a `Newline` (it is a `Dedent` when
open indentation is closed at end of input, and can be another token when
the final line lacks a trailing newline); empty input yields the single
token `Eof`. -/
theorem tokenStream_single_trailing_eof : (∀ (input : List Char) (ts : List Tok),
      splitIntoTokens input = .ok ts →
      ∃ pre, ts = pre ++ [Tok.eofT] ∧ Tok.eofT ∉ pre) ∧
    splitIntoTokens [] = .ok [Tok.eofT] := by
  constructor
  · intro input ts h
    unfold splitIntoTokens at h
    cases hsl : splitLoop (lexFuel input) ⟨true, 0⟩ ⟨input, false⟩ [] with
    | error e => rw [hsl] at h; exact absurd h (by simp)
    | ok tokens =>
      rw [hsl] at h
      dsimp only at h
      injection h with h1
      subst h1
      rcases splitLoop_eof_end _ _ _ _ _ hsl (by simp) with hout | ⟨pre, hpre, hnp⟩
      · -- no eof in tokens: both fixups apply
        have ht1 : Tok.eofT ∉ (if tokens ≠ [] ∧ tokens.getLast? ≠ some Tok.eofT ∧ tokens.getLast? ≠ some Tok.newline
            then tokens ++ [Tok.newline] else tokens) := by
          split
          · intro hmem
            rcases List.mem_append.1 hmem with hm | hm
            · exact hout hm
            · rw [List.mem_singleton] at hm
              exact Tok.noConfusion hm
          · exact hout
        set t₁ := if tokens ≠ [] ∧ tokens.getLast? ≠ some Tok.eofT ∧ tokens.getLast? ≠ some Tok.newline
            then tokens ++ [Tok.newline] else tokens with ht1def
        have hcond : t₁ = [] ∨ t₁.getLast? ≠ some Tok.eofT := by
          by_cases he : t₁ = []
          · exact Or.inl he
          · refine Or.inr ?_
            intro hlast
            exact ht1 (mem_of_getLast?A _ _ hlast)
        rw [if_pos hcond]
        exact ⟨t₁, rfl, ht1⟩
      · -- tokens already ends in eof
        subst hpre
        have hlast : (pre ++ [Tok.eofT]).getLast? = some Tok.eofT := getLast?_snocA _ _
        have hc1 : ¬(pre ++ [Tok.eofT] ≠ [] ∧ (pre ++ [Tok.eofT]).getLast? ≠ some Tok.eofT ∧
            (pre ++ [Tok.eofT]).getLast? ≠ some Tok.newline) := by
          intro hc
          exact hc.2.1 hlast
        rw [if_neg hc1]
        have hc2 : ¬(pre ++ [Tok.eofT] = [] ∨ (pre ++ [Tok.eofT]).getLast? ≠ some Tok.eofT) := by
          intro hc
          rcases hc with hc | hc
          · exact absurd hc (by simp)
          · exact hc hlast
        rw [if_neg hc2]
        exact ⟨pre, rfl, hnp⟩
  · rfl

end parse

namespace parse

/-- Witness for `tokenStream_single_trailing_eof`: the universal part applied
to the concrete accepted input `"x\n"`. -/
theorem tokenStream_single_trailing_eof_witness :
    ∃ pre, [Tok.id "x", Tok.newline, Tok.eofT] = pre ++ [Tok.eofT] ∧
      Tok.eofT ∉ pre :=
  tokenStream_single_trailing_eof.1 ("x\n".data)
    [Tok.id "x", Tok.newline, Tok.eofT] rfl

/-- C3 counterexample: the comment-only physical line `"  # c"` inside
`"x\n  # c\ny\n"` is not skipped: its two leading spaces are treated as
indentation (one `Indent` token, later rebalanced by a `Dedent` when the
next line returns to column zero) and its terminating newline emits a
`Newline` token, refuting the claim that such a line produces no layout
tokens. -/
theorem lexer_comment_line_emits_layout :
    splitIntoTokens ("x\n  # c\ny\n".data) =
      .ok [Tok.id "x", Tok.newline, Tok.indent, Tok.newline, Tok.dedent,
           Tok.id "y", Tok.newline, Tok.eofT] ∧
    Tok.indent ∈ [Tok.id "x", Tok.newline, Tok.indent, Tok.newline,
      Tok.dedent, Tok.id "y", Tok.newline, Tok.eofT] := by
  exact ⟨rfl, by simp⟩

/-- C3 (amended): at the start of a physical line, a line that is empty
(spaces followed by a newline) is skipped entirely — the lexer consumes it
and continues at the next line start with no token and no state change
regardless of the leading-space count; but a comment-only line is NOT
skipped entirely: its leading spaces are processed as ordinary indentation
(`CreateIndent`, which may emit `Indent`/`Dedent` counters or fail on an
odd indent) before the `#` is even looked at. -/
theorem lexer_empty_vs_comment_lines (fuel : Nat) (st : LexState) (k : Nat)
    (rest rest₂ : List Char) (h : st.is_new_line = true) :
    nextToken (fuel + 1) st ⟨List.replicate k ' ' ++ '\n' :: rest, false⟩ =
      nextToken fuel st ⟨rest, false⟩ ∧
    nextToken (fuel + 1) st ⟨List.replicate k ' ' ++ '#' :: rest₂, false⟩ =
      (match createIndent k ⟨false, st.indent_counter⟩ with
       | .error e => .error e
       | .ok (t, st₂) => .ok (t, st₂, (⟨'#' :: rest₂, false⟩ : Istream))) :=
  ⟨nextToken_new_line_skip fuel st k rest h,
   nextToken_new_line_comment fuel st k rest₂ h⟩

/-- Witness for `lexer_empty_vs_comment_lines` at a concrete state, space
count and stream tails. -/
theorem lexer_empty_vs_comment_lines_witness :
    (⟨true, 0⟩ : LexState).is_new_line = true ∧
    (nextToken 4 ⟨true, 0⟩ ⟨List.replicate 2 ' ' ++ '\n' :: ['x'], false⟩ =
        nextToken 3 ⟨true, 0⟩ ⟨['x'], false⟩ ∧
      nextToken 4 ⟨true, 0⟩ ⟨List.replicate 2 ' ' ++ '#' :: ['c'], false⟩ =
        (match createIndent 2 ⟨false, (⟨true, 0⟩ : LexState).indent_counter⟩ with
         | .error e => .error e
         | .ok (t, st₂) => .ok (t, st₂, (⟨'#' :: ['c'], false⟩ : Istream)))) :=
  ⟨rfl, lexer_empty_vs_comment_lines 3 ⟨true, 0⟩ 2 ['x'] ['c'] rfl⟩

/-- C6 (code bug): for the input `"x\n  y"`, whose last line is indented and
lacks a trailing newline, reading the final identifier puts the stream into
the failed state, so the `while (input)` loop of `SplitIntoTokens` exits
before the `Eof` branch that would emit the closing `Dedent`s: the emitted
stream contains one `Indent` and no `Dedent`, violating the balance
invariant the claim states. -/
theorem lexer_unbalanced_on_missing_trailing_newline :
    splitIntoTokens ("x\n  y".data) =
      .ok [Tok.id "x", Tok.newline, Tok.indent, Tok.id "y", Tok.newline,
           Tok.eofT] ∧
    [Tok.id "x", Tok.newline, Tok.indent, Tok.id "y", Tok.newline,
      Tok.eofT].count Tok.indent = 1 ∧
    [Tok.id "x", Tok.newline, Tok.indent, Tok.id "y", Tok.newline,
      Tok.eofT].count Tok.dedent = 0 := by
  refine ⟨rfl, ?_, ?_⟩ <;> rfl

end parse

namespace ast

/-- The comparison function captured by a `Comparison` node (the parser
passes one of the six `runtime` comparison functions). -/
inductive CmpOp where
  | eqO
  | neO
  | ltO
  | leO
  | gtO
  | geO
deriving DecidableEq

/-- The two instantiations of the `MakeComparison` template: `std::equal_to`
(for `Equal`) and `std::less` (for `Less`). -/
inductive CmpKind where
  | eqK
  | ltK
deriving DecidableEq

/-- AST statements (`ast::Statement` subclasses, statement.h). `const`
covers the `ValueStatement` instances (`NumericConst`, `StringConst`,
`BoolConst`); a `NewInstance` node owns its `ClassInstance` member `ci_`,
modelled by the fixed heap address `addr` at which that member lives;
`classDefinition` holds the index of its `Class` in the class table (the
`ObjectHolder cls_` member); `Print` and `Stringify` only touch the output
stream and are not needed by any claim, so they are omitted. -/
inductive Stmt where
  | const (v : runtime.Value)
  | variableValue (dotted_ids : List String)
  | assignment (var : String) (rv : Stmt)
  | fieldAssignment (objPath : List String) (field : String) (rv : Stmt)
  | newInstance (clsIdx : Nat) (addr : Nat) (args : List Stmt)
  | noneStmt
  | methodCall (obj : Stmt) (method : String) (args : List Stmt)
  | add (l r : Stmt)
  | sub (l r : Stmt)
  | mult (l r : Stmt)
  | div (l r : Stmt)
  | compound (ops : List Stmt)
  | orOp (l r : Stmt)
  | andOp (l r : Stmt)
  | notOp (arg : Stmt)
  | comparison (op : CmpOp) (l r : Stmt)
  | returnStmt (arg : Stmt)
  | methodBody (body : Stmt)
  | classDefinition (clsIdx : Nat)
  | ifElse (cond thenB : Stmt) (elseB : Option Stmt)

end ast

namespace runtime

/-- `runtime::Method`: name, formal parameter names, executable body. -/
structure MethodD where
  name : String
  formal_params : List String
  body : ast.Stmt

/-- `runtime::Class`: immutable descriptor. The parent pointer is the index
of an earlier entry of the class table (C++ parent pointers always refer to
a class constructed before the child, so the table is topologically
ordered). -/
structure ClassD where
  name : String
  methods : List MethodD
  parent : Option Nat

/-- The interpreter's immutable collection of class descriptors. -/
abbrev Env := List ClassD

/-- A live `ClassInstance`: its class and its mutable field table. -/
structure Inst where
  cls : Nat
  fields : Closure
deriving DecidableEq

/-- The mutable store of `ClassInstance` objects, addressed by index. -/
structure St where
  heap : List Inst
deriving DecidableEq

/-- Runtime errors (`std::runtime_error` messages). -/
abbrev Err := String

/-- Outcome of executing a statement: a normal result, or a propagating
`ReturnException` carrying the returned value. -/
inductive RRes (α : Type) where
  | norm (a : α)
  | ret (v : Value)
deriving DecidableEq

/-- The parent-chain walk of `Class::GetMethod(name)`: first method of the
class at index `i` with the given name, else the parent chain. The `p < i`
guard encodes that C++ parent pointers reference previously constructed
classes (no cycles), so the walk strictly descends and the explicit bound
never runs out when started at `i + 1`. -/
def getMethodNamedGo (env : Env) : Nat → Nat → String → Option MethodD
  | 0, _, _ => Option.none
  | bound + 1, i, name =>
    match env[i]? with
    | Option.none => Option.none
    | some cd =>
      match cd.methods.find? (fun m => m.name == name) with
      | some m => some m
      | Option.none =>
        match cd.parent with
        | Option.none => Option.none
        | some p => if p < i then getMethodNamedGo env bound p name else Option.none

/-- `Class::GetMethod(name)`. -/
def getMethodNamed (env : Env) (i : Nat) (name : String) : Option MethodD :=
  getMethodNamedGo env (i + 1) i name

/-- `Class::GetMethod(name, args_count)`: the name lookup above, then the
arity check on its (single) result. -/
def getMethodArity (env : Env) (i : Nat) (name : String) (argc : Nat) :
    Option MethodD :=
  match getMethodNamed env i name with
  | some m => if m.formal_params.length = argc then some m else Option.none
  | Option.none => Option.none

/-- `ClassInstance::HasMethod` / `TryMethod` as a class-table predicate. -/
def hasMethodAt (env : Env) (i : Nat) (name : String) (argc : Nat) : Bool :=
  (getMethodArity env i name argc).isSome

/-- The field table of the instance at address `a` (`p->Fields()`); the
address held by a live `ObjectHolder` is always in range in C++. -/
def heapFields (st : St) (a : Nat) : Closure :=
  match st.heap[a]? with
  | some ins => ins.fields
  | Option.none => []

/-- `p->Fields()[field] = v` on the instance at address `a`. -/
def setField (st : St) (a : Nat) (f : String) (v : Value) : St :=
  match st.heap[a]? with
  | some ins => ⟨st.heap.set a ⟨ins.cls, insertOrAssignC ins.fields f v⟩⟩
  | Option.none => st

/-- `ClassInstance::CreateLocalClosure`: fresh table with `self` emplaced
first, then each formal parameter emplaced in order (the C++ asserts the
two lists have equal length). -/
def createLocalClosure (selfAddr : Nat) (params : List String)
    (args : List Value) : Closure :=
  (params.zip args).foldl (fun c pa => emplaceC c pa.1 pa.2)
    (emplaceC [] "self" (Value.inst selfAddr))

end runtime

namespace ast

/-- `VariableValue::Execute`, the descent loop: follow the leading path
segments while each is bound to an instance in the current table; on the
first unbound or non-instance segment, `break` with the table reached so
far. -/
def varWalk (st : runtime.St) : runtime.Closure → List String → runtime.Closure
  | c, [] => c
  | c, id₀ :: rest =>
    match runtime.lookupC c id₀ with
    | some (runtime.Value.inst a) => varWalk st (runtime.heapFields st a) rest
    | _ => c

/-- `VariableValue::Execute`: walk all but the last dotted segment, then
look the last segment up in the table where the walk stopped, throwing when
it is absent there. (The C++ `dotted_ids_.back()` on an empty vector is
undefined; both constructors produce a non-empty vector.) -/
def variableValueExec (st : runtime.St) (cl : runtime.Closure)
    (ids : List String) : Except runtime.Err runtime.Value :=
  match ids.getLast? with
  | Option.none => .error "empty dotted path"
  | some last =>
    match runtime.lookupC (varWalk st cl ids.dropLast) last with
    | Option.none => .error ("Closure doesn't have variable with name: " ++ last)
    | some v => .ok v

/-- Result type of `Statement::Execute`: error, or outcome with the (by
reference, hence returned) caller closure and the heap. -/
abbrev EvalRes :=
  Except runtime.Err (runtime.RRes runtime.Value × runtime.Closure × runtime.St)

/-- Fuel-exhaustion marker of the model (no C++ counterpart: it only cuts
off computations deeper than the given fuel). -/
def fuelMsg : runtime.Err := "model: out of fuel"

/-- The argument-evaluation loops (`for (args_i : args_) push_back(Execute)`)
of `NewInstance::Execute` and `MethodCall::Execute`, parameterised by the
evaluation function: values in order; a `ReturnException` or error aborts
the loop and propagates. -/
def evalListWith (f : Stmt → runtime.Closure → runtime.St → EvalRes) :
    List Stmt → runtime.Closure → runtime.St →
    Except runtime.Err
      (runtime.RRes (List runtime.Value) × runtime.Closure × runtime.St)
  | [], cl, st => .ok (.norm [], cl, st)
  | a :: rest, cl, st =>
    match f a cl st with
    | .error e => .error e
    | .ok (.ret v, cl₁, st₁) => .ok (.ret v, cl₁, st₁)
    | .ok (.norm v, cl₁, st₁) =>
      match evalListWith f rest cl₁ st₁ with
      | .error e => .error e
      | .ok (.ret w, cl₂, st₂) => .ok (.ret w, cl₂, st₂)
      | .ok (.norm vs, cl₂, st₂) => .ok (.norm (v :: vs), cl₂, st₂)

/-- The statement loop of `Compound::Execute`: results discarded, `None`
at the end, exceptions propagate. -/
def evalSeqWith (f : Stmt → runtime.Closure → runtime.St → EvalRes) :
    List Stmt → runtime.Closure → runtime.St → EvalRes
  | [], cl, st => .ok (.norm runtime.Value.none, cl, st)
  | a :: rest, cl, st =>
    match f a cl st with
    | .error e => .error e
    | .ok (.ret v, cl₁, st₁) => .ok (.ret v, cl₁, st₁)
    | .ok (.norm _, cl₁, st₁) => evalSeqWith f rest cl₁ st₁

/-- `ClassInstance::Call(method, actual_args, context)` (the by-name
overload): resolve by name and arity via the throwing `GetMethod`, build
the local closure, execute the body, discard the local closure. -/
def callByNameWith (f : Stmt → runtime.Closure → runtime.St → EvalRes)
    (env : runtime.Env) (clsIdx selfAddr : Nat) (name : String)
    (args : List runtime.Value) (st : runtime.St) :
    Except runtime.Err (runtime.RRes runtime.Value × runtime.St) :=
  match runtime.getMethodArity env clsIdx name args.length with
  | Option.none => .error ("Unknown method name: " ++ name)
  | some m =>
    match f m.body (runtime.createLocalClosure selfAddr m.formal_params args) st with
    | .error e => .error e
    | .ok (r, _, st') => .ok (r, st')

/-- The body of `MethodCall::Execute` after the receiver has been
evaluated: a non-instance receiver, or an instance whose class does not
resolve the name at the argument count, silently yields `None`; otherwise
the arguments are evaluated in order and the method is invoked. (An
instance address outside the heap cannot arise from C++'s live holders and
is treated as a non-instance.) -/
def methodCallOnWith (f : Stmt → runtime.Closure → runtime.St → EvalRes)
    (env : runtime.Env) (v : runtime.Value) (m : String) (args : List Stmt)
    (cl : runtime.Closure) (st : runtime.St) : EvalRes :=
  match v with
  | .inst a =>
    match st.heap[a]? with
    | some ins =>
      if runtime.hasMethodAt env ins.cls m args.length then
        match evalListWith f args cl st with
        | .error e => .error e
        | .ok (.ret rv, cl₁, st₁) => .ok (.ret rv, cl₁, st₁)
        | .ok (.norm vals, cl₁, st₁) =>
          match callByNameWith f env ins.cls a m vals st₁ with
          | .error e => .error e
          | .ok (r, st₂) => .ok (r, cl₁, st₂)
      else .ok (.norm runtime.Value.none, cl, st)
    | Option.none => .ok (.norm runtime.Value.none, cl, st)
  | _ => .ok (.norm runtime.Value.none, cl, st)

/-- `std::equal_to` / `std::less` on `Number` payloads. -/
def scalarCmpN : CmpKind → Int → Int → Bool
  | .eqK, a, b => a == b
  | .ltK, a, b => decide (a < b)

/-- `std::equal_to` / `std::less` on `String` payloads (byte-wise
lexicographic order on valid UTF-8 agrees with the codepoint order used
here). -/
def scalarCmpS : CmpKind → String → String → Bool
  | .eqK, a, b => a == b
  | .ltK, a, b => decide (a < b)

/-- `std::equal_to` / `std::less` on `Bool` payloads (`false < true`). -/
def scalarCmpB : CmpKind → Bool → Bool → Bool
  | .eqK, a, b => a == b
  | .ltK, a, b => !a && b

/-- The type of `ClassInstance::Call` (by name) as passed into the
comparison helpers. -/
abbrev CallFn := Nat → Nat → String → List runtime.Value → runtime.St →
  Except runtime.Err (runtime.RRes runtime.Value × runtime.St)

/-- `runtime::MakeComparison`: both holders must be non-empty; an instance
left-hand side dispatches to the dunder via `Call` and coerces the result
with `IsTrue`; otherwise two scalars of the same kind (tried in the order
`String`, `Number`, `Bool`) compare by value; anything else throws. -/
def makeComparisonWith (callF : CallFn) (k : CmpKind) (fname : String) (lhs rhs : runtime.Value)
    (st : runtime.St) : Except runtime.Err (runtime.RRes Bool × runtime.St) :=
  if lhs ≠ runtime.Value.none ∧ rhs ≠ runtime.Value.none then
    match lhs, rhs with
    | .inst a, _ =>
      match st.heap[a]? with
      | some ins =>
        match callF ins.cls a fname [rhs] st with
        | .error e => .error e
        | .ok (.ret v, st') => .ok (.ret v, st')
        | .ok (.norm v, st') => .ok (.norm (runtime.IsTrue v), st')
      | Option.none => .error ("Cannot compare objects for " ++ fname)
    | .str x, .str y => .ok (.norm (scalarCmpS k x y), st)
    | .num x, .num y => .ok (.norm (scalarCmpN k x y), st)
    | .bool x, .bool y => .ok (.norm (scalarCmpB k x y), st)
    | _, _ => .error ("Cannot compare objects for " ++ fname)
  else .error ("Cannot compare objects for " ++ fname)

end ast

namespace ast

/-- `runtime::Equal` parameterised by the evaluation function for dunder
bodies: `None == None` is true, otherwise `MakeComparison` with
`std::equal_to` and `__eq__`. -/
def equalWith (callF : CallFn) (l r : runtime.Value) (st : runtime.St) :
    Except runtime.Err (runtime.RRes Bool × runtime.St) :=
  if l = runtime.Value.none ∧ r = runtime.Value.none then .ok (.norm true, st)
  else makeComparisonWith callF .eqK "__eq__" l r st

/-- `runtime::Less`: `MakeComparison` with `std::less` and `__lt__`. -/
def lessWith (callF : CallFn) (l r : runtime.Value) (st : runtime.St) :
    Except runtime.Err (runtime.RRes Bool × runtime.St) :=
  makeComparisonWith callF .ltK "__lt__" l r st

/-- `runtime::NotEqual`: `!Equal(lhs, rhs, context)`. -/
def notEqualWith (callF : CallFn) (l r : runtime.Value) (st : runtime.St) :
    Except runtime.Err (runtime.RRes Bool × runtime.St) :=
  match equalWith callF l r st with
  | .ok (.norm b, s) => .ok (.norm !b, s)
  | x => x

/-- `runtime::Greater`: `!Less(lhs, rhs) && !Equal(lhs, rhs)`; the `&&`
short-circuits, so `Equal` does not run when `Less` returned true. -/
def greaterWith (callF : CallFn) (l r : runtime.Value) (st : runtime.St) :
    Except runtime.Err (runtime.RRes Bool × runtime.St) :=
  match lessWith callF l r st with
  | .error e => .error e
  | .ok (.ret v, s) => .ok (.ret v, s)
  | .ok (.norm b₁, s₁) =>
    if b₁ then .ok (.norm false, s₁)
    else
      match equalWith callF l r s₁ with
      | .ok (.norm b₂, s₂) => .ok (.norm !b₂, s₂)
      | x => x

/-- `runtime::LessOrEqual`: `!Greater(lhs, rhs)`. -/
def lessOrEqualWith (callF : CallFn) (l r : runtime.Value) (st : runtime.St) :
    Except runtime.Err (runtime.RRes Bool × runtime.St) :=
  match greaterWith callF l r st with
  | .ok (.norm b, s) => .ok (.norm !b, s)
  | x => x

/-- `runtime::GreaterOrEqual`: `!Less(lhs, rhs)`. -/
def greaterOrEqualWith (callF : CallFn) (l r : runtime.Value) (st : runtime.St) :
    Except runtime.Err (runtime.RRes Bool × runtime.St) :=
  match lessWith callF l r st with
  | .ok (.norm b, s) => .ok (.norm !b, s)
  | x => x

/-- Dispatch of the comparator captured by a `Comparison` node. -/
def cmpApplyWith (callF : CallFn) (op : CmpOp) (l r : runtime.Value) (st : runtime.St) :
    Except runtime.Err (runtime.RRes Bool × runtime.St) :=
  match op with
  | .eqO => equalWith callF l r st
  | .neO => notEqualWith callF l r st
  | .ltO => lessWith callF l r st
  | .leO => lessOrEqualWith callF l r st
  | .gtO => greaterWith callF l r st
  | .geO => greaterOrEqualWith callF l r st

/-- `Statement::Execute` for each node type (statement.cpp), indexed by
fuel: every nested `Execute` call runs at one fuel less, so any terminating
C++ execution is reproduced at a large enough fuel. `RRes.ret` is the
thrown `ReturnException`, caught only by `methodBody`. -/
def eval (env : runtime.Env) : Nat → Stmt → runtime.Closure → runtime.St → EvalRes
  | 0, _, _, _ => .error fuelMsg
  | fuel + 1, stm, cl, st =>
    match stm with
    | .const v => .ok (.norm v, cl, st)
    | .noneStmt => .ok (.norm runtime.Value.none, cl, st)
    | .variableValue ids =>
      match variableValueExec st cl ids with
      | .error e => .error e
      | .ok v => .ok (.norm v, cl, st)
    | .assignment x rv =>
      match eval env fuel rv cl st with
      | .error e => .error e
      | .ok (.ret v, cl₁, st₁) => .ok (.ret v, cl₁, st₁)
      | .ok (.norm v, cl₁, st₁) => .ok (.norm v, runtime.insertOrAssignC cl₁ x v, st₁)
    | .fieldAssignment objPath f rv =>
      match variableValueExec st cl objPath with
      | .error e => .error e
      | .ok (runtime.Value.inst a) =>
        match eval env fuel rv cl st with
        | .error e => .error e
        | .ok (.ret v, cl₁, st₁) => .ok (.ret v, cl₁, st₁)
        | .ok (.norm v, cl₁, st₁) => .ok (.norm v, cl₁, runtime.setField st₁ a f v)
      | .ok _ => .ok (.norm runtime.Value.none, cl, st)
    | .newInstance clsIdx addr args =>
      if runtime.hasMethodAt env clsIdx "__init__" args.length then
        match evalListWith (fun s c t => eval env fuel s c t) args cl st with
        | .error e => .error e
        | .ok (.ret v, cl₁, st₁) => .ok (.ret v, cl₁, st₁)
        | .ok (.norm vals, cl₁, st₁) =>
          match callByNameWith (fun s c t => eval env fuel s c t) env clsIdx addr
              "__init__" vals st₁ with
          | .error e => .error e
          | .ok (.ret v, st₂) => .ok (.ret v, cl₁, st₂)
          | .ok (.norm _, st₂) => .ok (.norm (runtime.Value.inst addr), cl₁, st₂)
      else .ok (.norm (runtime.Value.inst addr), cl, st)
    | .methodCall o m args =>
      match eval env fuel o cl st with
      | .error e => .error e
      | .ok (.ret v, cl₁, st₁) => .ok (.ret v, cl₁, st₁)
      | .ok (.norm v, cl₁, st₁) =>
        methodCallOnWith (fun s c t => eval env fuel s c t) env v m args cl₁ st₁
    | .add l r =>
      match eval env fuel l cl st with
      | .error e => .error e
      | .ok (.ret v, cl₁, st₁) => .ok (.ret v, cl₁, st₁)
      | .ok (.norm lv, cl₁, st₁) =>
        match eval env fuel r cl₁ st₁ with
        | .error e => .error e
        | .ok (.ret v, cl₂, st₂) => .ok (.ret v, cl₂, st₂)
        | .ok (.norm rv, cl₂, st₂) =>
          match lv, rv with
          | .num a, .num b => .ok (.norm (.num (a + b)), cl₂, st₂)
          | .str a, .str b => .ok (.norm (.str (a ++ b)), cl₂, st₂)
          | .inst a, _ =>
            match st₂.heap[a]? with
            | some ins =>
              if runtime.hasMethodAt env ins.cls "__add__" 1 then
                match callByNameWith (fun s c t => eval env fuel s c t) env ins.cls a
                    "__add__" [rv] st₂ with
                | .error e => .error e
                | .ok (res, st₃) => .ok (res, cl₂, st₃)
              else .error "Couldn\x27t add this objects :("
            | Option.none => .error "Couldn\x27t add this objects :("
          | _, _ => .error "Couldn\x27t add this objects :("
    | .sub l r =>
      match eval env fuel l cl st with
      | .error e => .error e
      | .ok (.ret v, cl₁, st₁) => .ok (.ret v, cl₁, st₁)
      | .ok (.norm lv, cl₁, st₁) =>
        match eval env fuel r cl₁ st₁ with
        | .error e => .error e
        | .ok (.ret v, cl₂, st₂) => .ok (.ret v, cl₂, st₂)
        | .ok (.norm lv₂, cl₂, st₂) =>
          match lv, lv₂ with
          | .num a, .num b => .ok (.norm (.num (a - b)), cl₂, st₂)
          | _, _ => .error "Couldn\x27t sub this objects :("
    | .mult l r =>
      match eval env fuel l cl st with
      | .error e => .error e
      | .ok (.ret v, cl₁, st₁) => .ok (.ret v, cl₁, st₁)
      | .ok (.norm lv, cl₁, st₁) =>
        match eval env fuel r cl₁ st₁ with
        | .error e => .error e
        | .ok (.ret v, cl₂, st₂) => .ok (.ret v, cl₂, st₂)
        | .ok (.norm lv₂, cl₂, st₂) =>
          match lv, lv₂ with
          | .num a, .num b => .ok (.norm (.num (a * b)), cl₂, st₂)
          | _, _ => .error "Couldn\x27t muld this objects :("
    | .div l r =>
      match eval env fuel l cl st with
      | .error e => .error e
      | .ok (.ret v, cl₁, st₁) => .ok (.ret v, cl₁, st₁)
      | .ok (.norm lv, cl₁, st₁) =>
        match eval env fuel r cl₁ st₁ with
        | .error e => .error e
        | .ok (.ret v, cl₂, st₂) => .ok (.ret v, cl₂, st₂)
        | .ok (.norm lv₂, cl₂, st₂) =>
          match lv, lv₂ with
          | .num a, .num b =>
            if b ≠ 0 then .ok (.norm (.num (a.tdiv b)), cl₂, st₂)
            else .error "Couldn\x27t div this objects :("
          | _, _ => .error "Couldn\x27t div this objects :("
    | .compound ops => evalSeqWith (fun s c t => eval env fuel s c t) ops cl st
    | .orOp l r =>
      match eval env fuel l cl st with
      | .error e => .error e
      | .ok (.ret v, cl₁, st₁) => .ok (.ret v, cl₁, st₁)
      | .ok (.norm lv, cl₁, st₁) =>
        if runtime.IsTrue lv then .ok (.norm (.bool true), cl₁, st₁)
        else
          match eval env fuel r cl₁ st₁ with
          | .error e => .error e
          | .ok (.ret v, cl₂, st₂) => .ok (.ret v, cl₂, st₂)
          | .ok (.norm rv, cl₂, st₂) =>
            .ok (.norm (.bool (runtime.IsTrue rv)), cl₂, st₂)
    | .andOp l r =>
      match eval env fuel l cl st with
      | .error e => .error e
      | .ok (.ret v, cl₁, st₁) => .ok (.ret v, cl₁, st₁)
      | .ok (.norm lv, cl₁, st₁) =>
        if runtime.IsTrue lv then
          match eval env fuel r cl₁ st₁ with
          | .error e => .error e
          | .ok (.ret v, cl₂, st₂) => .ok (.ret v, cl₂, st₂)
          | .ok (.norm rv, cl₂, st₂) =>
            .ok (.norm (.bool (runtime.IsTrue rv)), cl₂, st₂)
        else .ok (.norm (.bool false), cl₁, st₁)
    | .notOp a =>
      match eval env fuel a cl st with
      | .error e => .error e
      | .ok (.ret v, cl₁, st₁) => .ok (.ret v, cl₁, st₁)
      | .ok (.norm av, cl₁, st₁) =>
        .ok (.norm (.bool (!runtime.IsTrue av)), cl₁, st₁)
    | .comparison op l r =>
      match eval env fuel l cl st with
      | .error e => .error e
      | .ok (.ret v, cl₁, st₁) => .ok (.ret v, cl₁, st₁)
      | .ok (.norm lv, cl₁, st₁) =>
        match eval env fuel r cl₁ st₁ with
        | .error e => .error e
        | .ok (.ret v, cl₂, st₂) => .ok (.ret v, cl₂, st₂)
        | .ok (.norm rv, cl₂, st₂) =>
          match cmpApplyWith
              (fun ci a nm ag t =>
                callByNameWith (fun s c u => eval env fuel s c u) env ci a nm ag t)
              op lv rv st₂ with
          | .error e => .error e
          | .ok (.ret v, st₃) => .ok (.ret v, cl₂, st₃)
          | .ok (.norm b, st₃) => .ok (.norm (.bool b), cl₂, st₃)
    | .returnStmt a =>
      match eval env fuel a cl st with
      | .error e => .error e
      | .ok (.ret v, cl₁, st₁) => .ok (.ret v, cl₁, st₁)
      | .ok (.norm v, cl₁, st₁) => .ok (.ret v, cl₁, st₁)
    | .methodBody b =>
      match eval env fuel b cl st with
      | .error e => .error e
      | .ok (.ret v, cl₁, st₁) => .ok (.norm v, cl₁, st₁)
      | .ok (.norm _, cl₁, st₁) => .ok (.norm runtime.Value.none, cl₁, st₁)
    | .classDefinition clsIdx =>
      match env[clsIdx]? with
      | some cd =>
        .ok (.norm runtime.Value.none,
          runtime.emplaceC cl cd.name (runtime.Value.cls clsIdx), st)
      | Option.none => .error "class definition without a class object"
    | .ifElse cond thenB elseB =>
      match eval env fuel cond cl st with
      | .error e => .error e
      | .ok (.ret v, cl₁, st₁) => .ok (.ret v, cl₁, st₁)
      | .ok (.norm cv, cl₁, st₁) =>
        if runtime.IsTrue cv then eval env fuel thenB cl₁ st₁
        else
          match elseB with
          | some eb => eval env fuel eb cl₁ st₁
          | Option.none => .ok (.norm runtime.Value.none, cl₁, st₁)

/-- `MethodCall::Execute` continuation at a given fuel (see
`methodCallOnWith`). -/
def methodCallOn (env : runtime.Env) (fuel : Nat) :
    runtime.Value → String → List Stmt → runtime.Closure → runtime.St → EvalRes :=
  methodCallOnWith (fun s c t => eval env fuel s c t) env

/-- Argument-list evaluation at a given fuel. -/
def evalList (env : runtime.Env) (fuel : Nat) :
    List Stmt → runtime.Closure → runtime.St →
    Except runtime.Err
      (runtime.RRes (List runtime.Value) × runtime.Closure × runtime.St) :=
  evalListWith (fun s c t => eval env fuel s c t)

/-- `ClassInstance::Call` (by name) at a given fuel. -/
def callByName (env : runtime.Env) (fuel : Nat) : CallFn :=
  fun ci a nm ag t =>
    callByNameWith (fun s c u => eval env fuel s c u) env ci a nm ag t

end ast

namespace runtime

/-- `runtime::Equal` at a given fuel for dunder bodies. -/
def Equal (env : Env) (fuel : Nat) (l r : Value) (st : St) :
    Except Err (RRes Bool × St) :=
  ast.equalWith (ast.callByName env fuel) l r st

/-- `runtime::Less` at a given fuel. -/
def Less (env : Env) (fuel : Nat) (l r : Value) (st : St) :
    Except Err (RRes Bool × St) :=
  ast.lessWith (ast.callByName env fuel) l r st

/-- `runtime::NotEqual`. -/
def NotEqual (env : Env) (fuel : Nat) (l r : Value) (st : St) :
    Except Err (RRes Bool × St) :=
  ast.notEqualWith (ast.callByName env fuel) l r st

/-- `runtime::Greater`. -/
def Greater (env : Env) (fuel : Nat) (l r : Value) (st : St) :
    Except Err (RRes Bool × St) :=
  ast.greaterWith (ast.callByName env fuel) l r st

/-- `runtime::LessOrEqual`. -/
def LessOrEqual (env : Env) (fuel : Nat) (l r : Value) (st : St) :
    Except Err (RRes Bool × St) :=
  ast.lessOrEqualWith (ast.callByName env fuel) l r st

/-- `runtime::GreaterOrEqual`. -/
def GreaterOrEqual (env : Env) (fuel : Nat) (l r : Value) (st : St) :
    Except Err (RRes Bool × St) :=
  ast.greaterOrEqualWith (ast.callByName env fuel) l r st

end runtime

namespace runtime

theorem lookupC_append_absent (cl : Closure) (k : String) (v : Value)
    (h : lookupC cl k = Option.none) : lookupC (cl ++ [(k, v)]) k = some v := by
  induction cl with
  | nil => simp [lookupC]
  | cons p rest ih =>
    obtain ⟨pk, pv⟩ := p
    simp only [lookupC, List.cons_append] at h ⊢
    by_cases hk : pk = k
    · simp [hk] at h
    · rw [if_neg hk] at h ⊢
      exact ih h

end runtime

/-- C4 counterexample: with `a` unbound and `b` bound to `Number(5)` in the
symbol table, evaluating the dotted path `a.b` does not raise: the descent
stops at `a` and the final segment `b` is resolved against the original
table, returning `Number(5)`. -/
theorem variableValue_no_error_on_unbound_head :
    ast.variableValueExec ⟨[]⟩ [("b", runtime.Value.num 5)] ["a", "b"] =
      .ok (runtime.Value.num 5) := rfl

/-- C4 (amended): evaluating `VariableValue` descends through instance
field tables while each leading segment resolves to an `Instance`; on the
first unbound or non-instance segment the descent stops, and the final
segment is resolved against the table where the walk stopped (possibly the
original symbol table); a runtime error is raised exactly when the final
segment is absent from that table, in which case the value found there is
returned. -/
theorem variableValue_error_characterization (st : runtime.St)
    (cl : runtime.Closure) (ids : List String) (last : String)
    (h : ids.getLast? = some last) :
    ((∃ e, ast.variableValueExec st cl ids = .error e) ↔
      runtime.lookupC (ast.varWalk st cl ids.dropLast) last = Option.none) ∧
    (∀ v, runtime.lookupC (ast.varWalk st cl ids.dropLast) last = some v →
      ast.variableValueExec st cl ids = .ok v) := by
  unfold ast.variableValueExec
  rw [h]
  constructor
  · cases hl : runtime.lookupC (ast.varWalk st cl ids.dropLast) last with
    | none => simp [hl]
    | some v => simp [hl]
  · intro v hv
    dsimp only
    rw [hv]

/-- Witness for `variableValue_error_characterization` at the concrete
table `{b -> Number 5}` and path `a.b`. -/
theorem variableValue_error_characterization_witness :
    ((∃ e, ast.variableValueExec ⟨[]⟩ [("b", runtime.Value.num 5)] ["a", "b"] =
        .error e) ↔
      runtime.lookupC
        (ast.varWalk ⟨[]⟩ [("b", runtime.Value.num 5)] (["a", "b"].dropLast)) "b" =
        Option.none) ∧
    (∀ v, runtime.lookupC
        (ast.varWalk ⟨[]⟩ [("b", runtime.Value.num 5)] (["a", "b"].dropLast)) "b" =
        some v →
      ast.variableValueExec ⟨[]⟩ [("b", runtime.Value.num 5)] ["a", "b"] = .ok v) :=
  variableValue_error_characterization ⟨[]⟩ [("b", runtime.Value.num 5)]
    ["a", "b"] "b" rfl

/-- C7: on two `None` operands, `equal` is true and `not_equal` false
without error, while all four ordering comparisons throw the
`MakeComparison` failure for `__lt__` (they are all derived from `Less`,
whose `lhs && rhs` guard fails on empty holders). -/
theorem none_comparisons (env : runtime.Env) (fuel : Nat) (st : runtime.St) :
    runtime.Equal env fuel runtime.Value.none runtime.Value.none st =
      .ok (.norm true, st) ∧
    runtime.NotEqual env fuel runtime.Value.none runtime.Value.none st =
      .ok (.norm false, st) ∧
    runtime.Less env fuel runtime.Value.none runtime.Value.none st =
      .error "Cannot compare objects for __lt__" ∧
    runtime.Greater env fuel runtime.Value.none runtime.Value.none st =
      .error "Cannot compare objects for __lt__" ∧
    runtime.LessOrEqual env fuel runtime.Value.none runtime.Value.none st =
      .error "Cannot compare objects for __lt__" ∧
    runtime.GreaterOrEqual env fuel runtime.Value.none runtime.Value.none st =
      .error "Cannot compare objects for __lt__" :=
  ⟨rfl, rfl, rfl, rfl, rfl, rfl⟩

/-- C10: executing a `ClassDefinition` uses `unordered_map::emplace`, which
does not overwrite: afterwards the class name maps to its previous value
when one existed, and to the class value only when the name was unbound. -/
theorem classDefinition_emplace (env : runtime.Env) (fuel : Nat)
    (clsIdx : Nat) (cd : runtime.ClassD) (cl : runtime.Closure)
    (st : runtime.St) (h : env[clsIdx]? = some cd) :
    ast.eval env (fuel + 1) (.classDefinition clsIdx) cl st =
      .ok (.norm runtime.Value.none,
        runtime.emplaceC cl cd.name (runtime.Value.cls clsIdx), st) ∧
    runtime.lookupC (runtime.emplaceC cl cd.name (runtime.Value.cls clsIdx))
        cd.name =
      some ((runtime.lookupC cl cd.name).getD (runtime.Value.cls clsIdx)) := by
  constructor
  · simp only [ast.eval, h]
  · unfold runtime.emplaceC
    cases hl : runtime.lookupC cl cd.name with
    | none =>
      rw [if_neg (by simp)]
      rw [runtime.lookupC_append_absent cl cd.name _ hl]
      rfl
    | some v =>
      rw [if_pos (by simp)]
      rw [hl]
      rfl

/-- Witness for `classDefinition_emplace` with a one-class table and an
empty symbol table. -/
theorem classDefinition_emplace_witness :
    ast.eval [⟨"A", [], Option.none⟩] 1 (.classDefinition 0) [] ⟨[]⟩ =
      .ok (.norm runtime.Value.none,
        runtime.emplaceC [] "A" (runtime.Value.cls 0), ⟨[]⟩) ∧
    runtime.lookupC (runtime.emplaceC [] "A" (runtime.Value.cls 0)) "A" =
      some ((runtime.lookupC [] "A").getD (runtime.Value.cls 0)) :=
  classDefinition_emplace [⟨"A", [], Option.none⟩] 0 0 ⟨"A", [], Option.none⟩
    [] ⟨[]⟩ rfl

/-- C5: `NewInstance::Execute` returns `ObjectHolder::Share(ci_)`, a
reference to the node's own `ClassInstance` member: whenever an evaluation
of the node completes normally, in any symbol table and state, the result
is the reference to the node's fixed heap address, so every two normal
evaluations of the same node yield the same underlying instance (the same
field table is observed and mutated through both). -/
theorem newInstance_same_instance (env : runtime.Env) (fuel₁ fuel₂ : Nat)
    (clsIdx addr : Nat) (args : List ast.Stmt)
    (cl₁ cl₂ cl₁' cl₂' : runtime.Closure) (st₁ st₂ st₁' st₂' : runtime.St)
    (v₁ v₂ : runtime.Value)
    (h₁ : ast.eval env fuel₁ (.newInstance clsIdx addr args) cl₁ st₁ =
      .ok (.norm v₁, cl₁', st₁'))
    (h₂ : ast.eval env fuel₂ (.newInstance clsIdx addr args) cl₂ st₂ =
      .ok (.norm v₂, cl₂', st₂')) :
    v₁ = runtime.Value.inst addr ∧ v₂ = runtime.Value.inst addr ∧ v₁ = v₂ := by
  have key : ∀ (fuel : Nat) (cl cl' : runtime.Closure) (st st' : runtime.St)
      (v : runtime.Value),
      ast.eval env fuel (.newInstance clsIdx addr args) cl st =
        .ok (.norm v, cl', st') → v = runtime.Value.inst addr := by
    intro fuel cl cl' st st' v h
    cases fuel with
    | zero => exact absurd h (by simp [ast.eval, ast.fuelMsg])
    | succ n =>
      simp only [ast.eval] at h
      split at h
      · split at h
        · exact absurd h (by simp)
        · exact absurd h (by simp)
        · split at h
          · exact absurd h (by simp)
          · exact absurd h (by simp)
          · simp only [Except.ok.injEq, Prod.mk.injEq,
              runtime.RRes.norm.injEq] at h
            exact h.1.symm
      · simp only [Except.ok.injEq, Prod.mk.injEq, runtime.RRes.norm.injEq] at h
        exact h.1.symm
  exact ⟨key _ _ _ _ _ _ h₁, key _ _ _ _ _ _ h₂,
    (key _ _ _ _ _ _ h₁).trans (key _ _ _ _ _ _ h₂).symm⟩

/-- Witness for `newInstance_same_instance`: a class without `__init__`,
evaluated twice from different symbol tables. -/
theorem newInstance_same_instance_witness :
    runtime.Value.inst 0 = runtime.Value.inst 0 ∧
    runtime.Value.inst 0 = runtime.Value.inst 0 ∧
    runtime.Value.inst 0 = runtime.Value.inst 0 :=
  newInstance_same_instance [⟨"A", [], Option.none⟩] 1 1 0 0 [] []
    [("z", runtime.Value.num 7)] [] [("z", runtime.Value.num 7)]
    ⟨[⟨0, []⟩]⟩ ⟨[⟨0, [("f", runtime.Value.num 3)]⟩]⟩
    ⟨[⟨0, []⟩]⟩ ⟨[⟨0, [("f", runtime.Value.num 3)]⟩]⟩
    (runtime.Value.inst 0) (runtime.Value.inst 0) rfl rfl

/-- C8: wherever `equal` and `less` are defined (return a boolean without
throwing), the derived comparisons satisfy the defining equations
`greater = !less && !equal` (with `Equal` run after `Less`, skipped by the
short-circuit when `less` is true), `less_or_equal = !greater`,
`greater_or_equal = !less`, `not_equal = !equal`. -/
theorem derived_comparison_equations (env : runtime.Env) (fuel : Nat)
    (l r : runtime.Value) (st st₀ st₁ st₂ : runtime.St) (b₀ b₁ b₂ : Bool)
    (hLess : runtime.Less env fuel l r st = .ok (.norm b₁, st₁))
    (hEqAfter : runtime.Equal env fuel l r st₁ = .ok (.norm b₂, st₂))
    (hEq : runtime.Equal env fuel l r st = .ok (.norm b₀, st₀)) :
    runtime.Greater env fuel l r st =
      .ok (.norm (!b₁ && !b₂), if b₁ then st₁ else st₂) ∧
    runtime.LessOrEqual env fuel l r st =
      .ok (.norm (!(!b₁ && !b₂)), if b₁ then st₁ else st₂) ∧
    runtime.GreaterOrEqual env fuel l r st = .ok (.norm (!b₁), st₁) ∧
    runtime.NotEqual env fuel l r st = .ok (.norm (!b₀), st₀) := by
  unfold runtime.Less at hLess
  unfold runtime.Equal at hEqAfter hEq
  have hg : runtime.Greater env fuel l r st =
      .ok (.norm (!b₁ && !b₂), if b₁ then st₁ else st₂) := by
    unfold runtime.Greater ast.greaterWith
    rw [hLess]
    cases b₁ with
    | true => simp
    | false =>
      dsimp only
      rw [hEqAfter]
      simp
  refine ⟨hg, ?_, ?_, ?_⟩
  · unfold runtime.LessOrEqual ast.lessOrEqualWith
    unfold runtime.Greater at hg
    rw [hg]
  · unfold runtime.GreaterOrEqual ast.greaterOrEqualWith
    rw [hLess]
  · unfold runtime.NotEqual ast.notEqualWith
    rw [hEq]

/-- Witness for `derived_comparison_equations` at `Number(1)` and
`Number(2)` (no dunder dispatch, so any fuel works). -/
theorem derived_comparison_equations_witness :
    runtime.Greater [] 0 (runtime.Value.num 1) (runtime.Value.num 2) ⟨[]⟩ =
      .ok (.norm (!true && !false), if true then (⟨[]⟩ : runtime.St) else ⟨[]⟩) ∧
    runtime.LessOrEqual [] 0 (runtime.Value.num 1) (runtime.Value.num 2) ⟨[]⟩ =
      .ok (.norm (!(!true && !false)), if true then (⟨[]⟩ : runtime.St) else ⟨[]⟩) ∧
    runtime.GreaterOrEqual [] 0 (runtime.Value.num 1) (runtime.Value.num 2) ⟨[]⟩ =
      .ok (.norm (!true), ⟨[]⟩) ∧
    runtime.NotEqual [] 0 (runtime.Value.num 1) (runtime.Value.num 2) ⟨[]⟩ =
      .ok (.norm (!false), ⟨[]⟩) :=
  derived_comparison_equations [] 0 (runtime.Value.num 1)
    (runtime.Value.num 2) ⟨[]⟩ ⟨[]⟩ ⟨[]⟩ ⟨[]⟩ false true false rfl rfl rfl

/-- C9: after the receiver of a `MethodCall` evaluates (normally) to `v`,
execution continues with the body modelled by `methodCallOn`; that body
silently returns `None` — no error — when `v` is not an instance (or its
address is not live, impossible in C++), and when the instance's class does
not resolve the method name at the argument count; when it does resolve,
the arguments are evaluated in order and the method is invoked via `Call`. -/
theorem methodCall_none_or_invoke (env : runtime.Env) (fuel : Nat)
    (v : runtime.Value) (m : String) (args : List ast.Stmt)
    (cl : runtime.Closure) (st : runtime.St) :
    (∀ (o : ast.Stmt) (cl₀ : runtime.Closure) (st₀ : runtime.St),
      ast.eval env fuel o cl₀ st₀ = .ok (.norm v, cl, st) →
      ast.eval env (fuel + 1) (.methodCall o m args) cl₀ st₀ =
        ast.methodCallOn env fuel v m args cl st) ∧
    ((∀ a, v ≠ runtime.Value.inst a) →
      ast.methodCallOn env fuel v m args cl st =
        .ok (.norm runtime.Value.none, cl, st)) ∧
    (∀ a, v = runtime.Value.inst a → st.heap[a]? = Option.none →
      ast.methodCallOn env fuel v m args cl st =
        .ok (.norm runtime.Value.none, cl, st)) ∧
    (∀ a ins, v = runtime.Value.inst a → st.heap[a]? = some ins →
      runtime.hasMethodAt env ins.cls m args.length = false →
      ast.methodCallOn env fuel v m args cl st =
        .ok (.norm runtime.Value.none, cl, st)) ∧
    (∀ a ins, v = runtime.Value.inst a → st.heap[a]? = some ins →
      runtime.hasMethodAt env ins.cls m args.length = true →
      ast.methodCallOn env fuel v m args cl st =
        (match ast.evalList env fuel args cl st with
         | .error e => .error e
         | .ok (.ret rv, cl₁, st₁) => .ok (.ret rv, cl₁, st₁)
         | .ok (.norm vals, cl₁, st₁) =>
           match ast.callByName env fuel ins.cls a m vals st₁ with
           | .error e => .error e
           | .ok (r, st₂) => .ok (r, cl₁, st₂))) := by
  refine ⟨?_, ?_, ?_, ?_, ?_⟩
  · intro o cl₀ st₀ h
    simp only [ast.eval]
    rw [h]
    rfl
  · intro hni
    cases v with
    | inst a => exact absurd rfl (hni a)
    | none => rfl
    | num n => rfl
    | str s => rfl
    | bool b => rfl
    | cls c => rfl
  · intro a hv hh
    subst hv
    unfold ast.methodCallOn ast.methodCallOnWith
    dsimp only
    rw [hh]
  · intro a ins hv hh hm
    subst hv
    unfold ast.methodCallOn ast.methodCallOnWith
    dsimp only
    rw [hh]
    dsimp only
    rw [if_neg (by rw [hm]; exact Bool.false_ne_true)]
  · intro a ins hv hh hm
    subst hv
    unfold ast.methodCallOn ast.methodCallOnWith
    dsimp only
    rw [hh]
    dsimp only
    rw [if_pos hm]
    rfl

/-- Witness for `methodCall_none_or_invoke`: a `Number` receiver yields
`None` without error. -/
theorem methodCall_none_or_invoke_witness :
    ast.methodCallOn [] 1 (runtime.Value.num 1) "f" [] [] ⟨[]⟩ =
      .ok (.norm runtime.Value.none, [], ⟨[]⟩) :=
  (methodCall_none_or_invoke [] 1 (runtime.Value.num 1) "f" [] [] ⟨[]⟩).2.1
    (fun _ h => runtime.Value.noConfusion h)
